import Mathlib

/-!
Verification of the cryptobot repository (src/main.py) against its
natural-language specification.

The development shallowly embeds the Python source: dicts become
insertion-ordered association lists, floats become rationals, the HTTP layer
becomes an explicit outcome parameter, and each function of the source is
translated into a Lean definition keeping the source name where possible.
-/

namespace Cryptobot

/-! ### Python dict model: insertion-ordered association lists.

A Python dict preserves insertion order; assigning to an existing key updates
it in place, assigning to a fresh key appends it. -/

def dictLookup {α : Type} (d : List (String × α)) (k : String) : Option α :=
  (d.find? (fun kv => kv.1 == k)).map Prod.snd

def dictHas {α : Type} (d : List (String × α)) (k : String) : Bool :=
  (d.find? (fun kv => kv.1 == k)).isSome

def dictInsert {α : Type} (d : List (String × α)) (k : String) (v : α) :
    List (String × α) :=
  if dictHas d k then d.map (fun kv => if kv.1 == k then (k, v) else kv)
  else d ++ [(k, v)]

def dictGetD {α : Type} (d : List (String × α)) (k : String) (v0 : α) : α :=
  (dictLookup d k).getD v0

theorem dictLookup_append_single {α : Type} (d : List (String × α)) (k : String)
    (v : α) (h : dictHas d k = false) : dictLookup (d ++ [(k, v)]) k = some v := by
  induction d with
  | nil => simp [dictLookup]
  | cons a t ih =>
      by_cases hA : (a.1 == k) = true
      · simp [dictHas, List.find?_cons, hA] at h
      · simp only [dictHas, List.find?_cons, Bool.not_eq_true] at h hA
        rw [hA] at h
        simp only [List.cons_append, dictLookup, List.find?_cons, hA]
        exact ih h

theorem dictLookup_map_update {α : Type} (d : List (String × α)) (k : String)
    (v : α) (h : dictHas d k = true) :
    dictLookup (d.map (fun kv => if kv.1 == k then (k, v) else kv)) k = some v := by
  induction d with
  | nil => simp [dictHas] at h
  | cons a t ih =>
      rw [List.map_cons]
      unfold dictLookup
      rw [List.find?_cons]
      cases hA : (a.1 == k) with
      | true => simp
      | false =>
          have h2 : dictHas t k = true := by
            unfold dictHas at h
            rw [List.find?_cons, hA] at h
            exact h
          rw [if_neg (by simp), hA]
          exact ih h2

theorem dictLookup_insert_self {α : Type} (d : List (String × α)) (k : String)
    (v : α) : dictLookup (dictInsert d k v) k = some v := by
  unfold dictInsert
  by_cases h : dictHas d k = true
  · rw [if_pos h]; exact dictLookup_map_update d k v h
  · rw [if_neg h]
    exact dictLookup_append_single d k v (by simpa using h)

theorem dictHas_eq_isSome {α : Type} (d : List (String × α)) (k : String) :
    dictHas d k = (dictLookup d k).isSome := by
  unfold dictHas dictLookup
  cases d.find? (fun kv => kv.1 == k) <;> rfl

/-! ### Python round(x, 2): round-half-to-even at two decimal places.

round2 models the built-in round applied to the exact rational value of its
argument (float representation noise is out of scope of the claims). -/

def roundHalfEven (q : ℚ) : ℤ :=
  if q - (⌊q⌋ : ℚ) < 1/2 then ⌊q⌋
  else if 1/2 < q - (⌊q⌋ : ℚ) then ⌊q⌋ + 1
  else if ⌊q⌋ % 2 = 0 then ⌊q⌋ else ⌊q⌋ + 1

def pyRound2 (q : ℚ) : ℚ := (roundHalfEven (q * 100) : ℚ) / 100

theorem roundHalfEven_eq_low (q : ℚ) (z : ℤ) (h1 : (z : ℚ) ≤ q)
    (h2 : q < (z : ℚ) + 1/2) : roundHalfEven q = z := by
  have hf : ⌊q⌋ = z := by
    rw [Int.floor_eq_iff]
    exact ⟨h1, by linarith⟩
  unfold roundHalfEven
  rw [hf, if_pos (by linarith)]

theorem pyRound2_eq (q : ℚ) (z : ℤ) (h1 : (z : ℚ) ≤ q * 100)
    (h2 : q * 100 < (z : ℚ) + 1/2) : pyRound2 q = (z : ℚ) / 100 := by
  unfold pyRound2
  rw [roundHalfEven_eq_low (q * 100) z h1 h2]

/-! ### Transport helpers `_get` and `_post` (src/main.py lines 14-37).

The outcome of `requests.get`/`requests.post` followed by `json.loads` is an
explicit parameter: either a decoded body, or an exception carrying a message.
A decoded body is a JSON object (a dict) or some non-object value; in the
latter case the assignment of the url key raises a TypeError which the
handler also catches. Dict values are modelled as strings. -/

inductive JsonBody where
  | obj (entries : List (String × String))
  | nonObj
deriving DecidableEq, Repr

inductive FetchOutcome where
  | ok (body : JsonBody)
  | exn (msg : String)
deriving DecidableEq, Repr

def _get (url : String) (outcome : FetchOutcome) : List (String × String) :=
  match outcome with
  | .ok (.obj d) => dictInsert d "url" url
  | .ok .nonObj => [("code", "-1"), ("url", url), ("msg", "TypeError")]
  | .exn e => [("code", "-1"), ("url", url), ("msg", e)]

def _post (url : String) (outcome : FetchOutcome) : List (String × String) :=
  match outcome with
  | .ok (.obj d) => dictInsert d "url" url
  | .ok .nonObj => [("code", "-1"), ("url", url), ("msg", "TypeError")]
  | .exn e => [("code", "-1"), ("url", url), ("msg", e)]

/-- C6: the transport GET and POST helpers never raise: every outcome
(success, non-object body, or exception) yields a dict; a failure yields the
uniform value carrying the code, the message and the requested URL; a success
yields the decoded body with the originating URL added; in every case the
result carries the requested URL under the url key. -/
theorem C6_transport_uniform_result (url : String) (d : List (String × String))
    (e : String) :
    _get url (.exn e) = [("code", "-1"), ("url", url), ("msg", e)] ∧
    _post url (.exn e) = [("code", "-1"), ("url", url), ("msg", e)] ∧
    _get url (.ok (.obj d)) = dictInsert d "url" url ∧
    _post url (.ok (.obj d)) = dictInsert d "url" url ∧
    (∀ oc : FetchOutcome, dictLookup (_get url oc) "url" = some url) ∧
    (∀ oc : FetchOutcome, dictLookup (_post url oc) "url" = some url) := by
  refine ⟨rfl, rfl, rfl, rfl, ?_, ?_⟩ <;>
    · intro oc
      cases oc with
      | ok body =>
          cases body with
          | obj d2 => exact dictLookup_insert_self d2 "url" url
          | nonObj => rfl
      | exn e2 => rfl

/-! ### Request signing: `Binance.sign_request` (src/main.py lines 93-100).

The source serializes the parameter map as key=value pairs joined with the
ampersand in iteration order, takes the hex HMAC-SHA-256 of that string
keyed by the secret, and assigns the digest to the signature key of the same
dict. SHA-256 and HMAC are implemented below from the standard the hashlib
and hmac modules implement, over byte lists of naturals. -/

def w32 (n : Nat) : Nat := n % 4294967296

def rotr32 (k x : Nat) : Nat := w32 ((x >>> k) ||| (x <<< (32 - k)))

def bigSigma0 (x : Nat) : Nat := rotr32 2 x ^^^ rotr32 13 x ^^^ rotr32 22 x

def bigSigma1 (x : Nat) : Nat := rotr32 6 x ^^^ rotr32 11 x ^^^ rotr32 25 x

def smallSigma0 (x : Nat) : Nat := rotr32 7 x ^^^ rotr32 18 x ^^^ (x >>> 3)

def smallSigma1 (x : Nat) : Nat := rotr32 17 x ^^^ rotr32 19 x ^^^ (x >>> 10)

def chF (x y z : Nat) : Nat := (x &&& y) ^^^ ((x ^^^ 4294967295) &&& z)

def majF (x y z : Nat) : Nat := (x &&& y) ^^^ (x &&& z) ^^^ (y &&& z)

/-- The first 64 primes, from which the standard derives the SHA-256 round
constants and initial hash values. -/
def sha256Primes : List Nat :=
  [2, 3, 5, 7, 11, 13, 17, 19, 23, 29, 31, 37, 41, 43, 47, 53, 59, 61, 67,
   71, 73, 79, 83, 89, 97, 101, 103, 107, 109, 113, 127, 131, 137, 139, 149,
   151, 157, 163, 167, 173, 179, 181, 191, 193, 197, 199, 211, 223, 227, 229,
   233, 239, 241, 251, 257, 263, 269, 271, 277, 281, 283, 293, 307, 311]

/-- Bisection for the integer k-th root, maintaining lo to the k-th power at
most n and n below hi to the k-th power. -/
def rootGo (pow : Nat) (n : Nat) : Nat → Nat → Nat → Nat
  | 0, lo, _ => lo
  | fuel + 1, lo, hi =>
      let mid := (lo + hi) / 2
      if mid = lo then lo
      else if mid ^ pow ≤ n then rootGo pow n fuel mid hi
      else rootGo pow n fuel lo mid

def natRoot (pow n : Nat) : Nat := rootGo pow n 200 0 (n + 1)

/-- The 64 round constants: the first 32 bits of the fractional parts of the
cube roots of the first 64 primes. -/
def sha256K : List Nat :=
  sha256Primes.map (fun p => natRoot 3 (p * 2 ^ 96) % 2 ^ 32)

/-- The initial hash values: the first 32 bits of the fractional parts of the
square roots of the first 8 primes. -/
def sha256H0 : List Nat :=
  (sha256Primes.take 8).map (fun p => natRoot 2 (p * 2 ^ 64) % 2 ^ 32)

def beBytes (w : Nat) (n : Nat) : List Nat :=
  (List.range w).map (fun i => n / 2 ^ (8 * (w - 1 - i)) % 256)

def bytesToWords : List Nat → List Nat
  | b0 :: b1 :: b2 :: b3 :: rest =>
      (((b0 * 256 + b1) * 256 + b2) * 256 + b3) :: bytesToWords rest
  | _ => []

def sha256pad (msg : List Nat) : List Nat :=
  let padlen := (119 - msg.length % 64) % 64
  msg ++ [128] ++ List.replicate padlen 0 ++ beBytes 8 (8 * msg.length)

def blocksGo : Nat → List Nat → List (List Nat)
  | 0, _ => []
  | n + 1, b => b.take 64 :: blocksGo n (b.drop 64)

def extendGo : Nat → List Nat → List Nat
  | 0, ws => ws
  | n + 1, ws =>
      let t := ws.length
      let w := w32 (smallSigma1 (ws.getD (t - 2) 0) + ws.getD (t - 7) 0
        + smallSigma0 (ws.getD (t - 15) 0) + ws.getD (t - 16) 0)
      extendGo n (ws ++ [w])

def sha256schedule (block : List Nat) : List Nat := extendGo 48 (bytesToWords block)

def sha256round (st : List Nat) (k : Nat) (w : Nat) : List Nat :=
  match st with
  | [a, b, c, d, e, f, g, h] =>
      let t1 := w32 (h + bigSigma1 e + chF e f g + k + w)
      let t2 := w32 (bigSigma0 a + majF a b c)
      [w32 (t1 + t2), a, b, c, w32 (d + t1), e, f, g]
  | other => other

def sha256compress (h : List Nat) (block : List Nat) : List Nat :=
  let ws := sha256schedule block
  let st := (List.zip sha256K ws).foldl (fun st kw => sha256round st kw.1 kw.2) h
  (List.zip h st).map (fun p => w32 (p.1 + p.2))

def sha256 (msg : List Nat) : List Nat :=
  let padded := sha256pad msg
  let hs := (blocksGo (padded.length / 64) padded).foldl sha256compress sha256H0
  hs.flatMap (beBytes 4)

def hmacSha256 (key msg : List Nat) : List Nat :=
  let key1 := if 64 < key.length then sha256 key else key
  let key2 := key1 ++ List.replicate (64 - key1.length) 0
  let ipad := key2.map (fun b => b ^^^ 54)
  let opad := key2.map (fun b => b ^^^ 92)
  sha256 (opad ++ sha256 (ipad ++ msg))

def hexChar (n : Nat) : Char :=
  if n < 10 then Char.ofNat (48 + n) else Char.ofNat (87 + n)

def hexdigest (bytes : List Nat) : String :=
  String.mk (bytes.flatMap (fun b => [hexChar (b / 16), hexChar (b % 16)]))

/-- UTF-8 bytes of a string, faithful for the ASCII payloads the bot signs. -/
def strBytes (s : String) : List Nat := s.data.map Char.toNat

/-- The query-string serialization the signer hashes: key=value pairs joined
with the ampersand, in the current iteration order of the dict. -/
def queryString (params : List (String × String)) : String :=
  String.intercalate "&" (params.map (fun kv => kv.1 ++ "=" ++ kv.2))

def sign_request (secret : String) (params : List (String × String)) :
    List (String × String) :=
  dictInsert params "signature"
    (hexdigest (hmacSha256 (strBytes secret) (strBytes (queryString params))))

set_option maxRecDepth 100000 in
/-- The SHA-256 implementation used by the signer agrees with the standard
test vector for the string abc. -/
theorem sha256_abc_vector :
    hexdigest (sha256 (strBytes "abc"))
      = "ba7816bf8f01cfea414140de5dae2223b00361a396177a9cb410ff61f20015ad" := by
  decide

set_option maxRecDepth 100000 in
/-- The HMAC-SHA-256 implementation used by the signer agrees with test case
2 of RFC 4231. -/
theorem hmacSha256_rfc4231_vector :
    hexdigest (hmacSha256 (strBytes "Jefe") (strBytes "what do ya want for nothing?"))
      = "5bdcc146bf60754e6a042426089575c75a003f089d2739839dec58b964ec3843" := by
  decide

/-- C7: signing serializes the map as key=value joined with the ampersand in
iteration order, hex-encodes the HMAC-SHA-256 of that string under the
secret, and appends the digest to the same map under the signature key; as a
pure function of the ordered map and the secret it is deterministic. -/
theorem C7_signing_appends_hmac (secret : String)
    (params : List (String × String))
    (h : dictHas params "signature" = false) :
    sign_request secret params
      = params ++ [("signature",
          hexdigest (hmacSha256 (strBytes secret)
            (strBytes (String.intercalate "&"
              (params.map (fun kv => kv.1 ++ "=" ++ kv.2))))))] ∧
    (∀ (secret2 : String) (params2 : List (String × String)),
      secret2 = secret → params2 = params →
      sign_request secret2 params2 = sign_request secret params) := by
  constructor
  · unfold sign_request dictInsert queryString
    rw [if_neg (by simp [h])]
  · intro s2 p2 hs hp
    rw [hs, hp]

theorem C7_witness :
    dictHas [("symbol", "BTCUSDT"), ("timestamp", "1000")] "signature" = false ∧
    sign_request "topsecret" [("symbol", "BTCUSDT"), ("timestamp", "1000")]
      = [("symbol", "BTCUSDT"), ("timestamp", "1000")] ++ [("signature",
          hexdigest (hmacSha256 (strBytes "topsecret")
            (strBytes (String.intercalate "&"
              ([("symbol", "BTCUSDT"), ("timestamp", "1000")].map
                (fun kv => kv.1 ++ "=" ++ kv.2))))))] :=
  ⟨by decide,
    (C7_signing_appends_hmac "topsecret"
      [("symbol", "BTCUSDT"), ("timestamp", "1000")] (by decide)).1⟩

/-! ### Paginated kline retrieval (src/main.py lines 144-210).

Only candle open times matter to the claims (lengths, ordering, duplicates),
so a candle series is the list of its open times. -/

/-- Modelled from the spec: the exchange kline endpoint returns the most
recent `limit` candles ending at `endTime` (inclusive of the candle whose
open time is `endTime`), spaced one interval `step` apart; the exchange is
taken to have unbounded history, so each page is full. This stands in for the
external Binance API together with the dataframe conversion performed by
`get_symbol_klines` for `limit` at most 1000. -/
def klinesPage (step : Int) (limit : Nat) (endTime : Int) : List Int :=
  (List.range limit).map (fun i => endTime - step * ((limit - 1 - i : Nat) : Int))

/-- The while-loop of `get_symbol_klines_extra`: each round fetches 1000
candles ending at the open time of the earliest candle currently held and
prepends the page, decrementing the round counter. -/
def kl_loop (step : Int) : Nat → List Int → List Int
  | 0, df => df
  | n + 1, df => kl_loop step n (klinesPage step 1000 (df.headD 0) ++ df)

/-- `Binance.get_symbol_klines_extra`: repeat_rounds is `limit` div 1000 when
`limit` exceeds 1000; the initial page requests `limit` mod 1000 candles,
or 1000 when the remainder is 0; the loop then prepends `repeat_rounds`
further pages of 1000. The sub-calls to `get_symbol_klines` always carry a
limit of at most 1000 and hence equal a single `klinesPage`. -/
def get_symbol_klines_extra (step : Int) (limit : Nat) (end_time : Int) :
    List Int :=
  let repeat_rounds := if 1000 < limit then limit / 1000 else 0
  let initial_limit := if limit % 1000 = 0 then 1000 else limit % 1000
  kl_loop step repeat_rounds (klinesPage step initial_limit end_time)

theorem klinesPage_length (step : Int) (limit : Nat) (endTime : Int) :
    (klinesPage step limit endTime).length = limit := by
  simp [klinesPage]

theorem kl_loop_length (step : Int) :
    ∀ (n : Nat) (df : List Int), (kl_loop step n df).length = 1000 * n + df.length := by
  intro n
  induction n with
  | zero => intro df; simp [kl_loop]
  | succ m ih =>
      intro df
      rw [kl_loop, ih, List.length_append, klinesPage_length]
      ring

theorem get_symbol_klines_extra_length (step : Int) (limit : Nat) (end_time : Int) :
    (get_symbol_klines_extra step limit end_time).length
      = 1000 * (if 1000 < limit then limit / 1000 else 0)
        + (if limit % 1000 = 0 then 1000 else limit % 1000) := by
  unfold get_symbol_klines_extra
  rw [kl_loop_length, klinesPage_length]

/-- C1: for totalCount 2500 the merge yields 2500 rows (pages 500, 1000,
1000), but there is no decrement of the page loop when the remainder is 0:
for totalCount 2000 the code fetches pages of sizes 1000, 1000, 1000 and
returns 3000 rows instead of the promised min(totalCount, available) = 2000. -/
theorem C1_exact_multiple_overfetches :
    (get_symbol_klines_extra 1 2500 0).length = 2500 ∧
    (get_symbol_klines_extra 1 2000 0).length = 3000 := by
  rw [get_symbol_klines_extra_length, get_symbol_klines_extra_length]
  norm_num

set_option maxRecDepth 100000 in
/-- C2: the merge step does not de-duplicate the boundary candle: with a
contiguous exchange history and totalCount 1500, the open time at the page
join (time -499 for unit step ending at 0) occurs twice in the merged
series, which is therefore not strictly increasing. -/
theorem C2_boundary_candle_duplicated :
    (get_symbol_klines_extra 1 1500 0).count (-499) = 2 ∧
    ¬ (get_symbol_klines_extra 1 1500 0).Sorted (· < ·) := by
  have hc : (get_symbol_klines_extra 1 1500 0).count (-499) = 2 := by decide
  refine ⟨hc, fun hs => ?_⟩
  have hcount := List.nodup_iff_count_le_one.mp hs.nodup (-499)
  omega

/-! ### `Binance.get_trading_symbols` (src/main.py lines 125-138). -/

structure SymbolInfo where
  symbol : String
  status : String
  quoteAsset : String
deriving DecidableEq, Repr

/-- The exchangeInfo response as the function consumes it: whether the dict
carries a code key (the transport failure or exchange error shape), and the
symbols array. -/
structure ExchangeInfoResponse where
  hasCode : Bool
  symbols : List SymbolInfo
deriving DecidableEq, Repr

/-- The accumulation loop of `get_trading_symbols`: append the pair symbol
when its status is TRADING and quoteassets is not None and contains its
quote asset. -/
def gts_go (quoteassets : Option (List String)) :
    List SymbolInfo → List String → List String
  | [], acc => acc
  | p :: ps, acc =>
      gts_go quoteassets ps
        (if p.status == "TRADING" then
          (if (match quoteassets with
               | none => false
               | some qs => qs.contains p.quoteAsset) then acc ++ [p.symbol] else acc)
         else acc)

def get_trading_symbols (data : ExchangeInfoResponse)
    (quoteassets : Option (List String)) : List String :=
  if data.hasCode then [] else gts_go quoteassets data.symbols []

theorem gts_go_none (l : List SymbolInfo) (acc : List String) :
    gts_go none l acc = acc := by
  induction l generalizing acc with
  | nil => rfl
  | cons p ps ih =>
      rw [gts_go]
      cases hs : (p.status == "TRADING") <;> simp [ih]

theorem gts_go_some (qs : List String) (l : List SymbolInfo) (acc : List String) :
    gts_go (some qs) l acc
      = acc ++ (l.filter
          (fun p => p.status == "TRADING" && qs.contains p.quoteAsset)).map
          (fun p => p.symbol) := by
  induction l generalizing acc with
  | nil => simp [gts_go]
  | cons p ps ih =>
      rw [gts_go]
      cases hs : (p.status == "TRADING") with
      | false => simp [ih, List.filter_cons, hs]
      | true =>
          rcases Bool.eq_false_or_eq_true (qs.contains p.quoteAsset) with hq | hq
          · have hm : p.quoteAsset ∈ qs := by simpa using hq
            simp [ih, List.filter_cons, hs, hq, hm]
          · have hm : p.quoteAsset ∉ qs := by simpa using hq
            simp [ih, List.filter_cons, hs, hq, hm]

/-- C10: get_trading_symbols returns the empty list when quoteassets is None
or when the response carries a code field; otherwise it returns exactly the
symbols whose status is TRADING and whose quote asset belongs to
quoteassets, in response order. -/
theorem C10_trading_symbols_characterization (d : ExchangeInfoResponse)
    (syms : List SymbolInfo) (qa : Option (List String)) (qs : List String) :
    get_trading_symbols d none = [] ∧
    get_trading_symbols ⟨true, syms⟩ qa = [] ∧
    get_trading_symbols ⟨false, syms⟩ (some qs)
      = (syms.filter
          (fun p => p.status == "TRADING" && qs.contains p.quoteAsset)).map
          (fun p => p.symbol) := by
  refine ⟨?_, rfl, ?_⟩
  · unfold get_trading_symbols
    cases d.hasCode with
    | true => rfl
    | false => simpa using gts_go_none d.symbols []
  · unfold get_trading_symbols
    simpa using gts_go_some qs syms []

/-! ### `Binance.place_order` (src/main.py lines 212-244).

The parameter dict mixes value kinds; the guard at line 233 compares the
Python builtin class `type` (not the tpe argument) against the string
MARKET, so the two operands are values of different kinds. -/

inductive PyVal where
  | str (s : String)
  | int (n : Int)
  | rat (q : ℚ)
  | typeBuiltin
deriving DecidableEq, Repr

/-- Models `Binance.float_to_string`: plain positional decimal rendering of
the value, never scientific notation. The 12-significant-digit decimal
context of the source is modelled as exact rendering at up to 12 fractional
digits (trailing zeros trimmed), which agrees with the source on the
magnitudes the bot trades; no claim depends on the digits themselves. -/
def float_to_string (q : ℚ) : String :=
  let sign := if q < 0 then "-" else ""
  let a : ℚ := |q|
  let scaled : ℤ := roundHalfEven (a * 1000000000000)
  let ip : ℤ := scaled / 1000000000000
  let fp : ℤ := scaled % 1000000000000
  if fp = 0 then sign ++ toString ip
  else
    let digits := (Nat.toDigits 10 (fp.toNat + 1000000000000)).drop 1
    let trimmed := (digits.reverse.dropWhile (fun c => c == '0')).reverse
    sign ++ toString ip ++ "." ++ String.mk trimmed

/-- The parameter map built by `place_order` before signing and posting. -/
def place_order_params (symbol side tpe : String) (quantity price : ℚ)
    (timestamp : Int) : List (String × PyVal) :=
  let params : List (String × PyVal) :=
    [("symbol", .str symbol), ("side", .str side), ("type", .str tpe),
     ("quoteOrderQty", .rat quantity), ("recvWindow", .int 5000),
     ("timestamp", .int timestamp)]
  if PyVal.typeBuiltin ≠ PyVal.str "MARKET" then
    dictInsert (dictInsert params "timeInForce" (.str "GTC")) "price"
      (.str (float_to_string price))
  else params

/-- C9: the guard compares the Python builtin `type` with the string MARKET
and is therefore always true, so for every order type argument — MARKET
included — the parameter map that is signed and posted contains
timeInForce = GTC and a price field. -/
theorem C9_market_order_always_gets_price (symbol side tpe : String)
    (quantity price : ℚ) (timestamp : Int) :
    PyVal.typeBuiltin ≠ PyVal.str "MARKET" ∧
    ("timeInForce", PyVal.str "GTC")
        ∈ place_order_params symbol side tpe quantity price timestamp ∧
    ("price", PyVal.str (float_to_string price))
        ∈ place_order_params symbol side tpe quantity price timestamp := by
  refine ⟨by decide, ?_, ?_⟩ <;>
    · unfold place_order_params dictInsert dictHas
      simp

/-! ### `Binance.get_account_balances` (src/main.py lines 262-289).

The price oracle parameter stands for the 24hr-ticker lookup: `some p` when
the response carries a lastPrice field, `none` when it does not (transport
failure or exchange error), in which case the subscript raises an uncaught
KeyError — modelled as the whole function returning `none`. -/

structure AssetBalance where
  asset : String
  free : ℚ
  locked : ℚ
deriving DecidableEq, Repr

/-- One iteration of the balance loop: handle a USDT row at face amount, then
value any non-excluded positive row at its last USDT price. -/
def valStep (prices : String → Option ℚ) (st : List (String × ℚ) × ℚ)
    (b : AssetBalance) : Option (List (String × ℚ) × ℚ) :=
  let st1 := if b.asset == "USDT"
    then (dictInsert st.1 "USDT" (pyRound2 b.free), st.2 + b.free)
    else st
  if (["NFT", "USDT", "BRL"] : List String).contains b.asset then some st1
  else if 0 < b.free then
    match prices (b.asset ++ "USDT") with
    | some p =>
        some (dictInsert st1.1 (b.asset ++ "USDT") (pyRound2 (p * b.free)),
          st1.2 + p * b.free)
    | none => none
  else some st1

def valFold (prices : String → Option ℚ) :
    List AssetBalance → (List (String × ℚ) × ℚ) → Option (List (String × ℚ) × ℚ)
  | [], st => some st
  | b :: bs, st =>
      match valStep prices st b with
      | some st2 => valFold prices bs st2
      | none => none

def get_account_balances (prices : String → Option ℚ)
    (balances : List AssetBalance) : Option (List (String × ℚ)) :=
  match valFold prices balances ([], 0) with
  | some st => some (dictInsert st.1 "BALANCE" (pyRound2 st.2))
  | none => none

/-- The total the spec describes: USDT rows at face amount plus every
non-quote, non-excluded row with positive free balance at last price times
free amount. -/
def specTotal (prices : String → Option ℚ) : List AssetBalance → ℚ
  | [] => 0
  | b :: bs =>
      (if b.asset == "USDT" then b.free else 0)
        + (if ¬ (["NFT", "USDT", "BRL"] : List String).contains b.asset ∧ 0 < b.free
           then ((prices (b.asset ++ "USDT")).getD 0) * b.free else 0)
        + specTotal prices bs

theorem valStep_total (prices : String → Option ℚ) (st st2 : List (String × ℚ) × ℚ)
    (b : AssetBalance) (h : valStep prices st b = some st2) :
    st2.2 = st.2 + ((if b.asset == "USDT" then b.free else 0)
      + (if ¬ (["NFT", "USDT", "BRL"] : List String).contains b.asset ∧ 0 < b.free
         then ((prices (b.asset ++ "USDT")).getD 0) * b.free else 0)) := by
  by_cases hN : b.asset = "NFT"
  · simp [valStep, hN] at h
    simp [hN, ← h]
  · by_cases hU : b.asset = "USDT"
    · simp [valStep, hU] at h
      simp [hU, ← h]
    · by_cases hB : b.asset = "BRL"
      · simp [valStep, hB] at h
        simp [hB, ← h]
      · by_cases hF : 0 < b.free
        · cases hp : prices (b.asset ++ "USDT") with
          | none => simp [valStep, hN, hU, hB, hF, hp] at h
          | some p =>
              simp [valStep, hN, hU, hB, hF, hp] at h
              simp [hN, hU, hB, hF, hp, ← h]
        · simp [valStep, hN, hU, hB, hF] at h
          simp [hN, hU, hB, hF, ← h]

theorem valFold_total (prices : String → Option ℚ) :
    ∀ (bs : List AssetBalance) (st st2 : List (String × ℚ) × ℚ),
      valFold prices bs st = some st2 → st2.2 = st.2 + specTotal prices bs := by
  intro bs
  induction bs with
  | nil =>
      intro st st2 h
      simp only [valFold, Option.some.injEq] at h
      rw [← h]
      simp [specTotal]
  | cons b t ih =>
      intro st st2 h
      rw [valFold] at h
      cases hstep : valStep prices st b with
      | none => rw [hstep] at h; exact absurd h (by simp)
      | some st1 =>
          rw [hstep] at h
          have h1 := valStep_total prices st st1 b hstep
          have h2 := ih st1 st2 h
          rw [h2, h1, specTotal]
          ring

theorem valFold_fails (prices : String → Option ℚ) :
    ∀ (bs : List AssetBalance) (st : List (String × ℚ) × ℚ) (b : AssetBalance),
      b ∈ bs → (["NFT", "USDT", "BRL"] : List String).contains b.asset = false →
      0 < b.free → prices (b.asset ++ "USDT") = none →
      valFold prices bs st = none := by
  intro bs
  induction bs with
  | nil => intro st b hmem; exact absurd hmem (by simp)
  | cons a t ih =>
      intro st b hmem hexcl hfree hfail
      rcases List.mem_cons.mp hmem with hb | hb
      · subst hb
        have hstep : valStep prices st b = none := by
          unfold valStep
          rw [hexcl]
          rw [if_neg (by simp), if_pos hfree, hfail]
        rw [valFold, hstep]
      · rw [valFold]
        cases hstep : valStep prices st a with
        | none => rfl
        | some st1 => exact ih st1 b hb hexcl hfree hfail

/-- C5 counterexample: a failed price lookup for one asset (BTC) makes
get_account_balances fail as a whole — no portfolio covering the remaining
asset (ETH, whose lookup would succeed) is returned, contrary to the claim
that valuation of the remaining assets completes. -/
theorem C5_counterexample :
    get_account_balances
      (fun s => if s == "ETHUSDT" then some 10 else none)
      [⟨"BTC", 1, 0⟩, ⟨"ETH", 2, 0⟩] = none := by
  norm_num +decide [get_account_balances, valFold, valStep]

/-- C5 amended: a transport or data-shape failure during the price lookup of
any non-excluded asset with positive free balance aborts the whole valuation:
the subscript on the failure value raises an uncaught KeyError and
get_account_balances returns no portfolio at all. -/
theorem C5_lookup_failure_aborts_valuation (prices : String → Option ℚ)
    (balances : List AssetBalance) (b : AssetBalance) (hmem : b ∈ balances)
    (hexcl : (["NFT", "USDT", "BRL"] : List String).contains b.asset = false)
    (hfree : 0 < b.free) (hfail : prices (b.asset ++ "USDT") = none) :
    get_account_balances prices balances = none := by
  unfold get_account_balances
  rw [valFold_fails prices balances ([], 0) b hmem hexcl hfree hfail]

theorem C5_witness :
    (⟨"BTC", 1, 0⟩ : AssetBalance) ∈ [(⟨"BTC", 1, 0⟩ : AssetBalance)] ∧
    get_account_balances (fun _ => none) [⟨"BTC", 1, 0⟩] = none :=
  ⟨List.mem_singleton.mpr rfl,
    C5_lookup_failure_aborts_valuation (fun _ => none) [⟨"BTC", 1, 0⟩]
      ⟨"BTC", 1, 0⟩ (List.mem_singleton.mpr rfl) (by decide)
      (by norm_num) rfl⟩

/-- C8 counterexample: with one BTC row of free amount 1 and last price
1.001, the computed BALANCE is 1 (the sum rounded to 2 decimal places),
not the exact sum 1.001 the claim asserts. -/
theorem C8_counterexample :
    (get_account_balances (fun s => if s == "BTCUSDT" then some (1001/1000) else none)
        [⟨"BTC", 1, 0⟩]).bind (fun d => dictLookup d "BALANCE") = some 1 ∧
    specTotal (fun s => if s == "BTCUSDT" then some (1001/1000) else none)
        [⟨"BTC", 1, 0⟩] = 1001/1000 ∧
    (1 : ℚ) ≠ 1001/1000 := by
  refine ⟨?_, ?_, by norm_num⟩
  · have hr : pyRound2 ((0 : ℚ) + 1001/1000 * 1) = (100 : ℤ) / 100 :=
      pyRound2_eq _ 100 (by norm_num) (by norm_num)
    norm_num at hr
    norm_num +decide [get_account_balances, valFold, valStep, dictLookup,
      dictInsert, dictHas, hr]
  · norm_num +decide [specTotal]

/-- C8 amended: whenever every needed price lookup succeeds (the function
returns a portfolio), the BALANCE entry equals the sum over non-quote,
non-excluded assets with positive free balance of last price times free
amount, plus USDT free at face amount, rounded to 2 decimal places. -/
theorem C8_total_is_rounded_sum (prices : String → Option ℚ)
    (balances : List AssetBalance) (d : List (String × ℚ))
    (h : get_account_balances prices balances = some d) :
    dictLookup d "BALANCE" = some (pyRound2 (specTotal prices balances)) := by
  unfold get_account_balances at h
  cases hf : valFold prices balances ([], 0) with
  | none => rw [hf] at h; exact absurd h (by simp)
  | some st =>
      rw [hf] at h
      have hd := (Option.some.injEq _ _).mp h
      have ht := valFold_total prices balances ([], 0) st hf
      simp only at ht
      rw [← hd, dictLookup_insert_self, ht]
      norm_num

theorem C8_witness :
    get_account_balances (fun _ => some 2) [⟨"ETH", 3, 0⟩]
        = some [("ETHUSDT", 6), ("BALANCE", 6)] ∧
    dictLookup [("ETHUSDT", (6 : ℚ)), ("BALANCE", 6)] "BALANCE"
        = some (pyRound2 (specTotal (fun _ => some 2) [⟨"ETH", 3, 0⟩])) := by
  have hr : pyRound2 ((0 : ℚ) + 2 * 3) = (600 : ℤ) / 100 :=
    pyRound2_eq _ 600 (by norm_num) (by norm_num)
  norm_num at hr
  have hg : get_account_balances (fun _ => some 2) [⟨"ETH", 3, 0⟩]
      = some [("ETHUSDT", 6), ("BALANCE", 6)] := by
    norm_num +decide [get_account_balances, valFold, valStep, dictInsert,
      dictHas, hr]
  exact ⟨hg, C8_total_is_rounded_sum (fun _ => some 2) [⟨"ETH", 3, 0⟩] _ hg⟩

/-! ### The rebalancing loop of `main` (src/main.py lines 301-335).

An order intent records one `market_order` call: symbol, side, and the
quote-notional quantity. `wallet` is the target-weights mapping read from the
spreadsheet; `balances` is the dict produced by get_account_balances, whose
BALANCE entry is the portfolio total; the tolerance is the literal 10 of the
source. The loop is embedded with an accumulator of the orders submitted so
far, in submission order. -/

structure OrderIntent where
  symbol : String
  side : String
  quantity : ℚ
deriving DecidableEq, Repr

/-- The orders the loop body submits for a single wallet entry. -/
def ordersFor (balances : List (String × ℚ)) (e : String × ℚ) :
    List OrderIntent :=
  if e.1 == "USDT" then []
  else
    match dictLookup balances e.1 with
    | some cur =>
        let tgt := e.2 / 100 * dictGetD balances "BALANCE" 0
        (if cur > tgt + 10 then [⟨e.1, "SELL", pyRound2 (cur - tgt)⟩] else [])
          ++ (if cur < tgt - 10 then [⟨e.1, "BUY", pyRound2 (tgt - cur)⟩] else [])
    | none => [⟨e.1, "BUY", pyRound2 (e.2 / 100 * dictGetD balances "BALANCE" 0)⟩]

def rebalanceGo (balances : List (String × ℚ)) :
    List (String × ℚ) → List OrderIntent → List OrderIntent
  | [], acc => acc
  | e :: rest, acc =>
      if e.1 == "USDT" then rebalanceGo balances rest acc
      else if dictHas balances e.1 then
        let cur := dictGetD balances e.1 0
        let tgt := e.2 / 100 * dictGetD balances "BALANCE" 0
        let acc1 := if cur > tgt + 10
          then acc ++ [⟨e.1, "SELL", pyRound2 (cur - tgt)⟩] else acc
        let acc2 := if cur < tgt - 10
          then acc1 ++ [⟨e.1, "BUY", pyRound2 (tgt - cur)⟩] else acc1
        rebalanceGo balances rest acc2
      else
        rebalanceGo balances rest
          (acc ++ [⟨e.1, "BUY", pyRound2 (e.2 / 100 * dictGetD balances "BALANCE" 0)⟩])

def rebalanceOrders (wallet balances : List (String × ℚ)) : List OrderIntent :=
  rebalanceGo balances wallet []

theorem rebalanceGo_eq_flatMap (balances : List (String × ℚ)) :
    ∀ (wallet : List (String × ℚ)) (acc : List OrderIntent),
      rebalanceGo balances wallet acc = acc ++ wallet.flatMap (ordersFor balances) := by
  intro wallet
  induction wallet with
  | nil => intro acc; simp [rebalanceGo]
  | cons e rest ih =>
      intro acc
      rw [rebalanceGo]
      cases hU : (e.1 == "USDT") with
      | true => simp [ih, ordersFor, hU]
      | false =>
          cases hH : dictHas balances e.1 with
          | false =>
              have hL : dictLookup balances e.1 = none := by
                rw [dictHas_eq_isSome] at hH
                exact Option.not_isSome_iff_eq_none.mp (by simp [hH])
              simp [ih, ordersFor, hU, hL]
          | true =>
              have hsome : (dictLookup balances e.1).isSome = true := by
                rw [← dictHas_eq_isSome]; exact hH
              obtain ⟨cur, hL⟩ := Option.isSome_iff_exists.mp hsome
              have hG : dictGetD balances e.1 0 = cur := by simp [dictGetD, hL]
              by_cases hS : cur > e.2 / 100 * dictGetD balances "BALANCE" 0 + 10 <;>
                by_cases hB2 : cur < e.2 / 100 * dictGetD balances "BALANCE" 0 - 10 <;>
                simp [ih, ordersFor, hU, hL, hG, hS, hB2]

theorem rebalanceOrders_eq_flatMap (wallet balances : List (String × ℚ)) :
    rebalanceOrders wallet balances = wallet.flatMap (ordersFor balances) := by
  rw [rebalanceOrders, rebalanceGo_eq_flatMap]
  simp

/-- C3 counterexample: with toleranceAbsolute 10, total 100 and an absent
asset of target value 5 (at most the tolerance), the loop still submits a
BUY of 5 — not no order as the claim asserts. -/
theorem C3_counterexample :
    rebalanceOrders [("ADAUSDT", 5)] [("BALANCE", 100)]
        = [⟨"ADAUSDT", "BUY", 5⟩] ∧
    rebalanceOrders [("ADAUSDT", 5)] [("BALANCE", 100)] ≠ [] ∧
    (5 : ℚ) ≤ 10 := by
  have hr : pyRound2 5 = (500 : ℤ) / 100 :=
    pyRound2_eq _ 500 (by norm_num) (by norm_num)
  norm_num at hr
  have h1 : rebalanceOrders [("ADAUSDT", 5)] [("BALANCE", 100)]
      = [⟨"ADAUSDT", "BUY", 5⟩] := by
    norm_num +decide [rebalanceOrders, rebalanceGo, dictHas, dictGetD,
      dictLookup, hr]
  refine ⟨h1, by rw [h1]; simp, by norm_num⟩

/-- C3 amended: an asset absent from the balances dict always falls into the
unconditional BUY branch: the loop submits exactly one BUY of the rounded
target value, even when that target value is at most toleranceAbsolute. -/
theorem C3_absent_asset_always_buys (wallet balances : List (String × ℚ))
    (asset : String) (pct : ℚ) (hU : asset ≠ "USDT")
    (h : dictLookup balances asset = none) :
    rebalanceOrders wallet balances = wallet.flatMap (ordersFor balances) ∧
    ordersFor balances (asset, pct)
      = [⟨asset, "BUY", pyRound2 (pct / 100 * dictGetD balances "BALANCE" 0)⟩] := by
  refine ⟨rebalanceOrders_eq_flatMap wallet balances, ?_⟩
  simp [ordersFor, hU, h]

theorem C3_witness :
    ("ETHUSDT" : String) ≠ "USDT" ∧
    ordersFor [("BALANCE", (100 : ℚ))] ("ETHUSDT", 30)
      = [⟨"ETHUSDT", "BUY",
          pyRound2 (30 / 100 * dictGetD [("BALANCE", (100 : ℚ))] "BALANCE" 0)⟩] :=
  ⟨by decide,
    (C3_absent_asset_always_buys [] [("BALANCE", (100 : ℚ))] "ETHUSDT" 30
      (by decide) (by simp +decide [dictLookup])).2⟩

/-- C4: for an asset held in the balances dict, with target value
pct/100 times the BALANCE total and tolerance 10: strictly above the band
the loop submits exactly one SELL of the rounded excess, strictly below it
exactly one BUY of the rounded shortfall, otherwise nothing; and the whole
run is the concatenation of these per-asset decisions in wallet order. -/
theorem C4_held_asset_tristate (wallet balances : List (String × ℚ))
    (asset : String) (pct cur tgt : ℚ) (hU : asset ≠ "USDT")
    (hc : dictLookup balances asset = some cur)
    (ht : tgt = pct / 100 * dictGetD balances "BALANCE" 0) :
    rebalanceOrders wallet balances = wallet.flatMap (ordersFor balances) ∧
    (cur > tgt + 10 →
      ordersFor balances (asset, pct) = [⟨asset, "SELL", pyRound2 (cur - tgt)⟩]) ∧
    (cur < tgt - 10 →
      ordersFor balances (asset, pct) = [⟨asset, "BUY", pyRound2 (tgt - cur)⟩]) ∧
    (¬ cur > tgt + 10 → ¬ cur < tgt - 10 →
      ordersFor balances (asset, pct) = []) := by
  subst ht
  refine ⟨rebalanceOrders_eq_flatMap wallet balances, ?_, ?_, ?_⟩
  · intro hS
    have hB2 : ¬ cur < pct / 100 * dictGetD balances "BALANCE" 0 - 10 := by linarith
    simp [ordersFor, hU, hc, hS, hB2]
  · intro hB2
    have hS : ¬ cur > pct / 100 * dictGetD balances "BALANCE" 0 + 10 := by linarith
    simp [ordersFor, hU, hc, hS, hB2]
  · intro hS hB2
    simp [ordersFor, hU, hc, hS, hB2]

theorem C4_witness :
    dictLookup [("BALANCE", (100 : ℚ)), ("BTCUSDT", 70)] "BTCUSDT" = some 70 ∧
    ordersFor [("BALANCE", (100 : ℚ)), ("BTCUSDT", 70)] ("BTCUSDT", 50)
      = [⟨"BTCUSDT", "SELL", pyRound2 (70 - 50)⟩] := by
  have h := C4_held_asset_tristate [] [("BALANCE", (100 : ℚ)), ("BTCUSDT", 70)]
    "BTCUSDT" 50 70 50 (by decide) (by simp +decide [dictLookup])
    (by norm_num +decide [dictGetD, dictLookup])
  exact ⟨by simp +decide [dictLookup], h.2.1 (by norm_num)⟩

end Cryptobot
